import Mathlib

/-!
Shallow embedding of the bulk-insertion path of `django_spanner/__init__.py`
(the monkey-patched `QuerySet.bulk_create` and its helpers
`spanner_check_bulk_create_options` and `spanner_prepare_for_bulk_create`),
together with faithful models of the external collaborators the source calls
into: `django.utils.functional.partition`, `transaction.atomic` (rollback on
error), and the statement executor `_batched_insert` (abstract, injectable).

Machine integers appear only as row counts and key values; Python ints are
unbounded, so they are `Nat`/`Int` directly. Fallible code returns `Except`.
-/

namespace DjangoSpanner

/-- The `OnConflict` enum of the source (`IGNORE`, `UPDATE`). `None` in the
source is represented as `Option OnConflict = none`. -/
inductive OnConflict where
  | ignore
  | update
  deriving DecidableEq, Repr

/-- Errors the bulk-create path can raise. `invalidArgument` models Python
`ValueError`, `notSupported` models `NotSupportedError`, `fieldDoesNotExist`
models `FieldDoesNotExist` from `Meta.get_field`, `assertionFailed` models a
failed `assert` statement, and `dbError` models a transport or backend error
raised by the statement executor. -/
inductive BulkError where
  | invalidArgument (msg : String)
  | notSupported (msg : String)
  | fieldDoesNotExist
  | assertionFailed
  | dbError (msg : String)
  deriving DecidableEq, Repr

/-- Metadata of one concrete model field, as consumed by the source:
`attname` (the attribute name set by `setattr`), `concrete`, `many_to_many`,
`primary_key`, and whether the field is an `AutoField` instance (tested by
`isinstance(f, AutoField)` at line 154). -/
structure FieldMeta where
  name : String
  concrete : Bool
  many_to_many : Bool
  primary_key : Bool
  isAuto : Bool
  deriving DecidableEq, Repr

/-- Backend capability flags read from `connection.features` /
`connection_db.features` in the source. -/
structure Features where
  supports_ignore_conflicts : Bool
  supports_update_conflicts : Bool
  supports_update_conflicts_with_target : Bool
  can_return_rows_from_bulk_insert : Bool
  max_query_params : Nat
  deriving DecidableEq, Repr

/-- Model metadata (`self.model._meta`): the ordered concrete field list, the
lookup table behind `get_field`, the attname of the primary-key field, the
`db_returning_fields` list, and whether every parent shares the concrete
model (the multi-table inheritance test at lines 104-106, folded to one
boolean since only its outcome matters). -/
structure ModelMeta where
  concrete_fields : List FieldMeta
  allFields : List (String × FieldMeta)
  pkName : String
  db_returning_fields : List FieldMeta
  parentsShareConcrete : Bool
  deriving DecidableEq, Repr

/-- `Meta.get_field(name)`: a lookup that raises `FieldDoesNotExist` when the
name is unknown. -/
def ModelMeta.get_field (meta : ModelMeta) (name : String) :
    Except BulkError FieldMeta :=
  match meta.allFields.lookup name with
  | some f => .ok f
  | none => .error .fieldDoesNotExist

/-- An in-memory entity (a model instance): optional primary key (`obj.pk`),
the other attributes as an association list (targets of `setattr`), the
`_state.adding` flag (the is-new flag) and the `_state.db` binding. -/
structure Entity where
  pk : Option Nat
  attrs : List (String × Nat)
  adding : Bool
  dbBinding : Option Nat
  deriving DecidableEq, Repr

/-- `spanner_check_bulk_create_options` (source lines 180-247), translated
branch for branch. Python truthiness of the two optional field-name lists is
empty-list falsiness here. -/
def spanner_check_bulk_create_options (meta : ModelMeta) (features : Features)
    (ignore_conflicts update_conflicts : Bool)
    (update_fields unique_fields : List String) :
    Except BulkError (Option OnConflict) :=
  if ignore_conflicts && update_conflicts then
    .error (.invalidArgument
      "ignore_conflicts and update_conflicts are mutually exclusive.")
  else if ignore_conflicts then
    if !features.supports_ignore_conflicts then
      .error (.notSupported
        "This database backend does not support ignoring conflicts.")
    else
      .ok (some .ignore)
  else if update_conflicts then
    if !features.supports_update_conflicts then
      .error (.notSupported
        "This database backend does not support updating conflicts.")
    else if update_fields.isEmpty then
      .error (.invalidArgument
        "Fields that will be updated when a row insertion fails on conflicts must be provided.")
    else if !unique_fields.isEmpty
        && !features.supports_update_conflicts_with_target then
      .error (.notSupported
        "This database backend does not support updating conflicts with specifying unique fields that can trigger the upsert.")
    else if unique_fields.isEmpty
        && features.supports_update_conflicts_with_target then
      .error (.invalidArgument
        "Unique fields that can trigger the upsert must be provided.")
    else
      match update_fields.mapM meta.get_field with
      | .error e => .error e
      | .ok ufl =>
        if ufl.any (fun f => !f.concrete || f.many_to_many) then
          .error (.invalidArgument
            "bulk_create() can only be used with concrete fields in update_fields.")
        else if ufl.any (fun f => f.primary_key) then
          .error (.invalidArgument
            "bulk_create() cannot be used with primary keys in update_fields.")
        else if !unique_fields.isEmpty then
          match (unique_fields.filter (fun n => n ≠ "pk")).mapM
              meta.get_field with
          | .error e => .error e
          | .ok uql =>
            if uql.any (fun f => !f.concrete || f.many_to_many) then
              .error (.invalidArgument
                "bulk_create() can only be used with concrete fields in unique_fields.")
            else
              .ok (some .update)
        else
          .ok (some .update)
  else
    .ok none

/-- The patched `AutoField` default `gen_rand_int64` (source lines 263-265):
`uuid4().int & 0x7FFFFFFFFFFFFFFF`, i.e. the random 128-bit integer reduced
modulo `2 ^ 63` (the mask is 63 one-bits). The random draw is a parameter. -/
def gen_rand_int64 (uuidInt : Nat) : Nat :=
  uuidInt % 2 ^ 63

/-- `spanner_prepare_for_bulk_create` (source lines 250-255): every entity
whose pk is absent is assigned `obj._meta.pk.get_pk_value_on_save(obj)`,
modelled as a stream `gen : Nat → Option Nat` consumed left to right (one
fresh call per key-less entity; `none` models a primary-key field with no
default, while the patched `AutoField` of this engine always yields a value,
via `gen_rand_int64`). Returns the updated list and the next unused stream
index. -/
def spanner_prepare_for_bulk_create (gen : Nat → Option Nat) :
    List Entity → Nat → List Entity × Nat
  | [], i => ([], i)
  | o :: os, i =>
    if o.pk = none then
      let rest := spanner_prepare_for_bulk_create gen os (i + 1)
      ({ o with pk := gen i } :: rest.1, rest.2)
    else
      let rest := spanner_prepare_for_bulk_create gen os i
      (o :: rest.1, rest.2)

/-- `django.utils.functional.partition(predicate, values)`: one pass that
appends each item to the false bucket or the true bucket, returning
`(falses, trues)`. At line 125 the predicate is `o.pk is None`, so the first
component is `objs_with_pk` and the second `objs_without_pk`. -/
def djangoPartition (pred : α → Bool) : List α → List α × List α
  | [] => ([], [])
  | v :: vs =>
    let rest := djangoPartition pred vs
    if pred v then (rest.1, v :: rest.2) else (v :: rest.1, rest.2)

/-- Worker for `chunksOf`, structurally recursive on a fuel argument (the
list length bounds the number of chunks) so that the function computes
definitionally. -/
def chunksOfGo (bs : Nat) : Nat → List α → List (List α)
  | _, [] => []
  | 0, _ :: _ => []
  | fuel + 1, x :: xs =>
    if bs = 0 then []
    else (x :: xs).take bs :: chunksOfGo bs fuel ((x :: xs).drop bs)

/-- The chunking comprehension at lines 128-131:
`[objs[x : x + batch_size] for x in range(0, len(objs), batch_size)]`.
For a zero batch size Python `range` would raise; the model returns `[]`,
and every theorem that uses chunking assumes a positive batch size. -/
def chunksOf (bs : Nat) (l : List α) : List (List α) :=
  chunksOfGo bs l.length l

/-- `setattr(obj, attname, value)` routed through the attribute map: in the
source `obj.pk` is an alias of the primary-key field attribute, so writing
the pk attname updates `pk`, every other attname updates `attrs`. -/
def setAttr (meta : ModelMeta) (e : Entity) (name : String) (v : Nat) :
    Entity :=
  if name = meta.pkName then { e with pk := some v }
  else
    { e with attrs :=
        (name, v) :: e.attrs.filter (fun p => p.1 ≠ name) }

/-- The inner write-back loop `for result, field in zip(results,
opts.db_returning_fields)`. `skipPk = true` models the with-pk branch at
lines 143-147, whose body is guarded by `if field != opts.pk`. -/
def applyRow (meta : ModelMeta) (skipPk : Bool) (e : Entity)
    (row : List Nat) : Entity :=
  (row.zip meta.db_returning_fields).foldl
    (fun acc p =>
      if skipPk && p.2.name = meta.pkName then acc
      else setAttr meta acc p.2.name p.1) e

/-- Python `zip`: pair entities with returned rows up to the shorter length,
apply `f` to each pair, and leave the entities beyond the zip untouched. -/
def zipApply (f : Entity → List Nat → Entity) :
    List Entity → List (List Nat) → List Entity
  | [], _ => []
  | es, [] => es
  | e :: es, r :: rs => f e r :: zipApply f es rs

/-- Write-back for one with-pk chunk (lines 140-151): zip the chunk against
the returned rows writing non-pk returning fields, then, for every entity of
the chunk, clear `_state.adding` and bind `_state.db`. -/
def writeback_with_pk (meta : ModelMeta) (db : Nat) (chunk : List Entity)
    (returned : List (List Nat)) : List Entity :=
  (zipApply (applyRow meta true) chunk returned).map
    (fun e => { e with adding := false, dbBinding := some db })

/-- Write-back for the without-pk group (lines 169-175): the adding/db
updates sit inside the zip loop, so only entities paired with a returned row
are touched. -/
def writeback_without_pk (meta : ModelMeta) (db : Nat) :
    List Entity → List (List Nat) → List Entity
  | [], _ => []
  | es, [] => es
  | e :: es, r :: rs =>
    { applyRow meta false e r with adding := false, dbBinding := some db }
      :: writeback_without_pk meta db es rs

/-- The committed database state seen by the statement executor: a bag of
rows. Only the executor and the atomic scope interpret it. -/
abbrev DbState := List (List Nat)

/-- Observable events of one `bulk_create` call, used for the temporal
claims: the key-assignment pass (`_prepare_for_bulk_create`), entry into the
`transaction.atomic` block with its savepoint flag, the
partition step, one executor invocation per batch tagged with whether the
batch is from the with-pk group and its row count, and exit of the atomic
block. -/
inductive Event where
  | assignKeys
  | atomicBegin (savepoint : Bool)
  | partitionObjs
  | insertBatch (hasPk : Bool) (size : Nat)
  | atomicEnd
  deriving DecidableEq, Repr

/-- The statement executor `_batched_insert`, an external collaborator:
given the current database state, a batch, the field list and the conflict
policy, it returns the (possibly partially written) new state together with
either the returned rows or a backend error. The state is returned even on
error so that rollback is genuinely the atomic scope's doing. -/
structure Executor where
  insert : DbState → List Entity → List FieldMeta → Option OnConflict →
    DbState × Except BulkError (List (List Nat))

/-- `transaction.atomic(using=self.db, savepoint=False)` (line 124): run the
body; on success keep its state, on error restore the state from scope
entry. The begin/end events are recorded around the body's events (no end
event on the error path, where the exception propagates out of the scope). -/
def atomicRun (s : DbState)
    (body : DbState → DbState × List Event × Except BulkError α) :
    DbState × List Event × Except BulkError α :=
  match body s with
  | (s', evs, .ok a) =>
    (s', .atomicBegin false :: (evs ++ [.atomicEnd]), .ok a)
  | (_, evs, .error e) => (s, .atomicBegin false :: evs, .error e)

/-- The with-pk loop (lines 126-151): for each chunk, invoke the executor
and write back, threading the database state; any executor error stops the
loop and propagates. Returns the written-back entities in order. -/
def processWithPkChunks (meta : ModelMeta) (ex : Executor) (db : Nat)
    (fields : List FieldMeta) (on_conflict : Option OnConflict) :
    DbState → List (List Entity) → DbState × List Event × Except BulkError (List Entity)
  | s, [] => (s, [], .ok [])
  | s, chunk :: rest =>
    let step := ex.insert s chunk fields on_conflict
    match step.2 with
    | .error e => (step.1, [.insertBatch true chunk.length], .error e)
    | .ok returned =>
      let chunkDone := writeback_with_pk meta db chunk returned
      let tail := processWithPkChunks meta ex db fields on_conflict step.1 rest
      match tail.2.2 with
      | .error e =>
        (tail.1, .insertBatch true chunk.length :: tail.2.1, .error e)
      | .ok restDone =>
        (tail.1, .insertBatch true chunk.length :: tail.2.1,
          .ok (chunkDone ++ restDone))

/-- The without-pk branch (lines 153-175): drop `AutoField`s from the field
list, invoke the executor once on the whole group, run the
`can_return_rows_from_bulk_insert` length assertion when the conflict policy
is `None`, then write back inside the zip. -/
def processWithoutPk (meta : ModelMeta) (features : Features) (ex : Executor)
    (db : Nat) (fields : List FieldMeta) (on_conflict : Option OnConflict)
    (s : DbState) (objs_without_pk : List Entity) :
    DbState × List Event × Except BulkError (List Entity) :=
  if objs_without_pk.isEmpty then (s, [], .ok [])
  else
    let fields2 := fields.filter (fun f => !f.isAuto)
    let step := ex.insert s objs_without_pk fields2 on_conflict
    match step.2 with
    | .error e =>
      (step.1, [.insertBatch false objs_without_pk.length], .error e)
    | .ok returned =>
      if features.can_return_rows_from_bulk_insert = true ∧ on_conflict = none
          ∧ returned.length ≠ objs_without_pk.length then
        (step.1, [.insertBatch false objs_without_pk.length],
          .error .assertionFailed)
      else
        (step.1, [.insertBatch false objs_without_pk.length],
          .ok (writeback_without_pk meta db objs_without_pk returned))

/-- In-place mutation through the partition aliases, re-expressed: rebuild
the full list by walking the prepared entities (the partition input) and
drawing the next processed entity from the with-pk results when the
predicate is false, from the without-pk results when it is true. -/
def restoreByPred (pred : Entity → Bool) :
    List Entity → List Entity → List Entity → List Entity
  | [], _, _ => []
  | o :: os, fs, ts =>
    if pred o then
      match ts with
      | t :: ts2 => t :: restoreByPred pred os fs ts2
      | [] => []
    else
      match fs with
      | f :: fs2 => f :: restoreByPred pred os fs2 ts
      | [] => []

/-- Line 122: `batch_size = connection_db.features.max_query_params`. The
caller's hint is rebound away, so the effective batch size is the backend
ceiling irrespective of the hint. -/
def effective_batch_size (_hint : Option Int) (features : Features) : Nat :=
  features.max_query_params

/-- The partition predicate of line 125: `lambda o: o.pk is None`. -/
def pkIsNone (o : Entity) : Bool :=
  o.pk = none

/-- Body of the `with transaction.atomic(...)` block (lines 125-175):
partition, with-pk chunk loop, without-pk branch, and reconstruction of the
aliased input list. -/
def bulk_create_inner (meta : ModelMeta) (features : Features)
    (ex : Executor) (db : Nat) (batch_size : Nat)
    (on_conflict : Option OnConflict) (objs : List Entity) (s : DbState) :
    DbState × List Event × Except BulkError (List Entity) :=
  let parts := djangoPartition pkIsNone objs
  let objs_with_pk := parts.1
  let objs_without_pk := parts.2
  let fields := meta.concrete_fields
  let wp := processWithPkChunks meta ex db fields on_conflict s
    (chunksOf batch_size objs_with_pk)
  match wp.2.2 with
  | .error e => (wp.1, .partitionObjs :: wp.2.1, .error e)
  | .ok withPkDone =>
    let wo := processWithoutPk meta features ex db fields on_conflict wp.1
      objs_without_pk
    match wo.2.2 with
    | .error e => (wo.1, .partitionObjs :: (wp.2.1 ++ wo.2.1), .error e)
    | .ok withoutPkDone =>
      (wo.1, .partitionObjs :: (wp.2.1 ++ wo.2.1),
        .ok (restoreByPred pkIsNone objs withPkDone withoutPkDone))

/-- `spanner_bulk_create` (lines 70-177): argument validation, the
empty-input fast path, conflict-option resolution, the key-assignment pass,
the effective batch size, and the atomic scope around the insert work.
Returns the final database state, the event trace, and either the mutated
entity list in original order or the raised error. -/
def spanner_bulk_create (meta : ModelMeta) (features : Features)
    (ex : Executor) (gen : Nat → Option Nat) (db : Nat) (s : DbState)
    (objs : List Entity) (batch_size : Option Int)
    (ignore_conflicts update_conflicts : Bool)
    (update_fields unique_fields : List String) :
    DbState × List Event × Except BulkError (List Entity) :=
  if batch_size.any (fun b => b ≤ 0) then
    (s, [], .error (.invalidArgument "Batch size must be a positive integer."))
  else if !meta.parentsShareConcrete then
    (s, [], .error
      (.invalidArgument "Cannot bulk create a multi-table inherited model"))
  else if objs.isEmpty then (s, [], .ok objs)
  else
    match spanner_check_bulk_create_options meta features ignore_conflicts
        update_conflicts update_fields unique_fields with
    | .error e => (s, [], .error e)
    | .ok on_conflict =>
      let prepared := (spanner_prepare_for_bulk_create gen objs 0).1
      let bsz := effective_batch_size batch_size features
      let res := atomicRun s
        (bulk_create_inner meta features ex db bsz on_conflict prepared)
      (res.1, .assignKeys :: res.2.1, res.2.2)

/-! Concrete fixtures used by counterexamples and witness theorems: a model
with an auto primary key `id` and one data column `x`, a backend with a
parameter ceiling of 2, an executor that commits one row per entity and
returns one (empty) returned row per entity, and a deterministic key
stream. -/

def fldId : FieldMeta := ⟨"id", true, false, true, true⟩

def fldX : FieldMeta := ⟨"x", true, false, false, false⟩

def metaX : ModelMeta :=
  ⟨[fldId, fldX], [("id", fldId), ("x", fldX)], "id", [], true⟩

def featSmall : Features := ⟨true, true, true, true, 2⟩

def exOk : Executor :=
  ⟨fun s batch _ _ =>
    (s ++ batch.map (fun e => [e.pk.getD 0]),
     .ok (batch.map (fun _ => [])))⟩

def freshKeys : Nat → Option Nat := fun i => some (i + 100)

def entNoPk : Entity := ⟨none, [], true, none⟩

def entPk (k : Nat) : Entity := ⟨some k, [], true, none⟩

/-! Helper lemmas about the chunking function. -/

lemma chunksOfGo_flatten (bs : Nat) (hbs : 0 < bs) :
    ∀ (fuel : Nat) (l : List α), l.length ≤ fuel →
      (chunksOfGo bs fuel l).flatten = l := by
  intro fuel
  induction fuel with
  | zero =>
    intro l hl
    cases l with
    | nil => rfl
    | cons x xs => simp at hl
  | succ n ih =>
    intro l hl
    cases l with
    | nil => rfl
    | cons x xs =>
      rw [chunksOfGo, if_neg (Nat.pos_iff_ne_zero.mp hbs)]
      rw [List.flatten_cons, ih ((x :: xs).drop bs)
        (by simp only [List.length_drop, List.length_cons]
            simp only [List.length_cons] at hl
            omega)]
      exact List.take_append_drop bs (x :: xs)

lemma chunksOf_flatten (bs : Nat) (hbs : 0 < bs) (l : List α) :
    (chunksOf bs l).flatten = l :=
  chunksOfGo_flatten bs hbs l.length l le_rfl

lemma chunksOfGo_length_le (bs : Nat) :
    ∀ (fuel : Nat) (l : List α), ∀ c ∈ chunksOfGo bs fuel l,
      c.length ≤ bs := by
  intro fuel
  induction fuel with
  | zero =>
    intro l c hc
    cases l with
    | nil => simp [chunksOfGo] at hc
    | cons x xs => simp [chunksOfGo] at hc
  | succ n ih =>
    intro l c hc
    cases l with
    | nil => simp [chunksOfGo] at hc
    | cons x xs =>
      rw [chunksOfGo] at hc
      by_cases hbs : bs = 0
      · rw [if_pos hbs] at hc
        simp at hc
      · rw [if_neg hbs] at hc
        rcases List.mem_cons.mp hc with h | h
        · subst h
          exact List.length_take_le bs (x :: xs)
        · exact ih _ c h

lemma chunksOf_length_le (bs : Nat) (l : List α) :
    ∀ c ∈ chunksOf bs l, c.length ≤ bs :=
  chunksOfGo_length_le bs l.length l

lemma chunksOfGo_mem_mem (bs : Nat) :
    ∀ (fuel : Nat) (l c : List α), c ∈ chunksOfGo bs fuel l →
      ∀ x ∈ c, x ∈ l := by
  intro fuel
  induction fuel with
  | zero =>
    intro l c hc
    cases l with
    | nil => simp [chunksOfGo] at hc
    | cons y ys => simp [chunksOfGo] at hc
  | succ n ih =>
    intro l c hc x hx
    cases l with
    | nil => simp [chunksOfGo] at hc
    | cons y ys =>
      rw [chunksOfGo] at hc
      by_cases hbs : bs = 0
      · rw [if_pos hbs] at hc
        simp at hc
      · rw [if_neg hbs] at hc
        rcases List.mem_cons.mp hc with h | h
        · subst h
          exact List.take_subset bs (y :: ys) hx
        · exact List.drop_subset bs (y :: ys) (ih _ c h x hx)

lemma chunksOf_mem_mem (bs : Nat) (l c : List α) (hc : c ∈ chunksOf bs l) :
    ∀ x ∈ c, x ∈ l :=
  chunksOfGo_mem_mem bs l.length l c hc

/-- Claim C8: for every combination of the remaining arguments and of the
capability flags, calling the conflict-policy resolver with both
`ignore_conflicts` and `update_conflicts` set fails with the
mutual-exclusion `ValueError`, before anything else is examined. -/
theorem C8_both_flags_invalid (meta : ModelMeta) (features : Features)
    (update_fields unique_fields : List String) :
    spanner_check_bulk_create_options meta features true true
        update_fields unique_fields
      = .error (.invalidArgument
          "ignore_conflicts and update_conflicts are mutually exclusive.") :=
  rfl

/-- Claim C3 counterexample: the hint 1 is positive and does not exceed the
backend ceiling 2, yet the effective batch size is 2, and the two keyed
entities reach the executor as one batch of 2 instead of two batches of 1,
so the effective batch size does not equal the hint. -/
theorem C3_counterexample :
    effective_batch_size (some 1) featSmall ≠ 1
      ∧ (1 : Int) ≤ (featSmall.max_query_params : Int)
      ∧ (spanner_bulk_create metaX featSmall exOk freshKeys 7 []
            [entPk 1, entPk 2] (some 1) false false [] []).2.1
        = [.assignKeys, .atomicBegin false, .partitionObjs,
           .insertBatch true 2, .atomicEnd] := by
  refine ⟨by decide, by decide, by rfl⟩

/-- Claim C3 (amended): the caller hint is only validated for positivity and
is otherwise ignored: the effective batch size used for chunking always
equals the backend maximum query parameter count, and a call with any
positive hint behaves exactly like a call with no hint. -/
theorem C3_amended_hint_ignored (hint : Option Int) (b : Int)
    (hb : hint = some b) (hpos : 0 < b) (meta : ModelMeta)
    (features : Features) (ex : Executor) (gen : Nat → Option Nat) (db : Nat)
    (s : DbState) (objs : List Entity) (ic uc : Bool)
    (uf qf : List String) :
    effective_batch_size hint features = features.max_query_params
      ∧ spanner_bulk_create meta features ex gen db s objs hint ic uc uf qf
        = spanner_bulk_create meta features ex gen db s objs none ic uc
            uf qf := by
  constructor
  · rfl
  · subst hb
    have hcond : (some b).any (fun x => decide (x ≤ 0)) = false := by
      simp only [Option.any_some, decide_eq_false_iff_not]
      omega
    rw [spanner_bulk_create, spanner_bulk_create, hcond]
    rfl

theorem C3_amended_hint_ignored_witness :
    effective_batch_size (some 1) featSmall = featSmall.max_query_params
      ∧ spanner_bulk_create metaX featSmall exOk freshKeys 7 []
          [entPk 1, entPk 2] (some 1) false false [] []
        = spanner_bulk_create metaX featSmall exOk freshKeys 7 []
            [entPk 1, entPk 2] none false false [] [] :=
  C3_amended_hint_ignored (some 1) 1 rfl (by decide) metaX featSmall exOk
    freshKeys 7 [] [entPk 1, entPk 2] false false [] []

/-- Claim C4 counterexample: the model has 2 concrete fields per row and the
ceiling is 2 parameters, so the claimed bound is floor(2 / 2) = 1 row per
batch; but the two keyed entities are executed as a single batch of 2 rows,
because line 122 uses the raw parameter ceiling as the row-count batch size
without dividing by the field count. -/
theorem C4_counterexample :
    metaX.concrete_fields.length = 2
      ∧ featSmall.max_query_params = 2
      ∧ Event.insertBatch true 2 ∈
          (spanner_bulk_create metaX featSmall exOk freshKeys 7 []
            [entPk 1, entPk 2] none false false [] []).2.1
      ∧ featSmall.max_query_params / metaX.concrete_fields.length < 2 := by
  refine ⟨rfl, rfl, ?_, by decide⟩
  have h : (spanner_bulk_create metaX featSmall exOk freshKeys 7 []
      [entPk 1, entPk 2] none false false [] []).2.1
      = [.assignKeys, .atomicBegin false, .partitionObjs,
         .insertBatch true 2, .atomicEnd] := by rfl
  rw [h]
  simp

/-- Claim C4 (amended): with the positive row-count batch size that line 122
derives from the backend (the raw maximum query parameter count, not divided
by the field count), every produced batch has at most that many rows, and
the batches are contiguous slices whose concatenation equals the chunked
group exactly (no overlaps, no gaps; the last chunk may be smaller). -/
theorem C4_amended_batch_bounds (features : Features)
    (hbs : 0 < features.max_query_params) (l : List Entity) :
    (∀ c ∈ chunksOf features.max_query_params l,
        c.length ≤ features.max_query_params)
      ∧ (chunksOf features.max_query_params l).flatten = l :=
  ⟨chunksOf_length_le features.max_query_params l,
   chunksOf_flatten features.max_query_params hbs l⟩

theorem C4_amended_batch_bounds_witness :
    (∀ c ∈ chunksOf featSmall.max_query_params [entPk 1, entPk 2, entPk 3],
        c.length ≤ featSmall.max_query_params)
      ∧ (chunksOf featSmall.max_query_params
          [entPk 1, entPk 2, entPk 3]).flatten = [entPk 1, entPk 2, entPk 3] :=
  C4_amended_batch_bounds featSmall (by decide) [entPk 1, entPk 2, entPk 3]

/-! Helper lemmas for the partition of line 125. -/

lemma djangoPartition_eq_filter (pred : α → Bool) (l : List α) :
    djangoPartition pred l
      = (l.filter (fun v => !pred v), l.filter pred) := by
  induction l with
  | nil => rfl
  | cons v vs ih =>
    rw [djangoPartition, ih]
    by_cases hp : pred v
    · simp [hp, List.filter_cons]
    · simp [hp, List.filter_cons]

lemma restoreByPred_cons (pred : Entity → Bool) (o : Entity)
    (os fs ts : List Entity) :
    restoreByPred pred (o :: os) fs ts
      = if pred o then
          match ts with
          | t :: ts2 => t :: restoreByPred pred os fs ts2
          | [] => []
        else
          match fs with
          | f :: fs2 => f :: restoreByPred pred os fs2 ts
          | [] => [] :=
  rfl

lemma restoreByPred_partition (pred : Entity → Bool) (l : List Entity) :
    restoreByPred pred l (djangoPartition pred l).1
      (djangoPartition pred l).2 = l := by
  induction l with
  | nil => rfl
  | cons o os ih =>
    by_cases hp : pred o
    · have hpart : djangoPartition pred (o :: os)
          = ((djangoPartition pred os).1, o :: (djangoPartition pred os).2) := by
        rw [djangoPartition, if_pos hp]
      rw [hpart, restoreByPred_cons, if_pos hp]
      exact congrArg (o :: ·) ih
    · have hpart : djangoPartition pred (o :: os)
          = (o :: (djangoPartition pred os).1, (djangoPartition pred os).2) := by
        rw [djangoPartition, if_neg hp]
      rw [hpart, restoreByPred_cons, if_neg hp]
      exact congrArg (o :: ·) ih

/-- Claim C5: the partition into the with-pk and without-pk groups is the
stable partition (each group is the order-preserving filter of the input,
hence a sublist preserving original relative order), and restoring the two
groups to their original positions rebuilds exactly the input list. -/
theorem C5_stable_partition (objs : List Entity) :
    (djangoPartition pkIsNone objs).1
        = objs.filter (fun o => !pkIsNone o)
      ∧ (djangoPartition pkIsNone objs).2 = objs.filter pkIsNone
      ∧ (djangoPartition pkIsNone objs).1.Sublist objs
      ∧ (djangoPartition pkIsNone objs).2.Sublist objs
      ∧ restoreByPred pkIsNone objs (djangoPartition pkIsNone objs).1
          (djangoPartition pkIsNone objs).2 = objs := by
  refine ⟨?_, ?_, ?_, ?_, restoreByPred_partition pkIsNone objs⟩
  · rw [djangoPartition_eq_filter]
  · rw [djangoPartition_eq_filter]
  · rw [djangoPartition_eq_filter]
    exact List.filter_sublist objs
  · rw [djangoPartition_eq_filter]
    exact List.filter_sublist objs

/-- Claim C10: in the without-pk write-back the not-new marking and the
connection binding happen inside the zip over returned rows, so an entity
whose position has no returned row (in particular every entity when the
backend returns no rows) is left completely unchanged, while each entity
paired with a returned row is marked not-new and bound to the target
connection. -/
theorem C10_writeback_frame (meta : ModelMeta) (db : Nat)
    (es : List Entity) (rows : List (List Nat)) :
    (writeback_without_pk meta db es rows).length = es.length
      ∧ (∀ i, rows.length ≤ i →
          (writeback_without_pk meta db es rows)[i]? = es[i]?)
      ∧ (∀ i, i < rows.length → i < es.length →
          ∃ e, (writeback_without_pk meta db es rows)[i]? = some e
            ∧ e.adding = false ∧ e.dbBinding = some db) := by
  induction es generalizing rows with
  | nil =>
    refine ⟨?_, ?_, ?_⟩
    · cases rows <;> rfl
    · intro i _
      cases rows <;> rfl
    · intro i _ hi
      simp at hi
  | cons e es ih =>
    cases rows with
    | nil =>
      refine ⟨rfl, fun i _ => rfl, ?_⟩
      intro i hi
      simp at hi
    | cons r rs =>
      obtain ⟨ihlen, ihframe, ihset⟩ := ih rs
      refine ⟨?_, ?_, ?_⟩
      · simp only [writeback_without_pk, List.length_cons, ihlen]
      · intro i hile
        cases i with
        | zero => simp at hile
        | succ j =>
          simp only [writeback_without_pk, List.getElem?_cons_succ]
          exact ihframe j (by simpa using hile)
      · intro i hlt hlt2
        cases i with
        | zero =>
          simp only [writeback_without_pk, List.getElem?_cons_zero]
          exact ⟨_, rfl, rfl, rfl⟩
        | succ j =>
          simp only [writeback_without_pk, List.getElem?_cons_succ]
          exact ihset j (by simpa using hlt) (by simpa using hlt2)

theorem C10_writeback_frame_witness :
    (writeback_without_pk metaX 7 [entNoPk, entNoPk] [[5]])[1]?
        = [entNoPk, entNoPk][1]?
      ∧ ∃ e, (writeback_without_pk metaX 7 [entNoPk, entNoPk] [[5]])[0]?
          = some e ∧ e.adding = false ∧ e.dbBinding = some 7 := by
  have h := C10_writeback_frame metaX 7 [entNoPk, entNoPk] [[5]]
  exact ⟨h.2.1 1 (by decide), h.2.2 0 (by decide) (by decide)⟩

/-! Rollback behaviour of the atomic scope. -/

lemma atomicRun_error (s : DbState)
    (body : DbState → DbState × List Event × Except BulkError α)
    (e : BulkError) (h : (atomicRun s body).2.2 = .error e) :
    (atomicRun s body).1 = s := by
  rcases hb : body s with ⟨si, evsi, ri⟩
  cases ri with
  | ok a =>
    unfold atomicRun at h
    rw [hb] at h
    simp at h
  | error e2 =>
    unfold atomicRun
    rw [hb]

/-- Claim C6: whenever a call raises an error (in particular when any
batch insert fails partway through a multi-batch call), the final database
state equals the state at entry: all rows written inside the atomic scope
are rolled back, and no partial commit is observable. -/
theorem C6_rollback_on_error (meta : ModelMeta) (features : Features)
    (ex : Executor) (gen : Nat → Option Nat) (db : Nat) (s : DbState)
    (objs : List Entity) (bs : Option Int) (ic uc : Bool)
    (uf qf : List String) (s2 : DbState) (evs : List Event) (e : BulkError)
    (h : spanner_bulk_create meta features ex gen db s objs bs ic uc uf qf
      = (s2, evs, .error e)) : s2 = s := by
  unfold spanner_bulk_create at h
  split at h
  · exact (congrArg Prod.fst h).symm
  · split at h
    · exact (congrArg Prod.fst h).symm
    · split at h
      · exact Except.noConfusion (congrArg (fun t => t.2.2) h)
      · split at h
        · exact (congrArg Prod.fst h).symm
        · exact (congrArg Prod.fst h).symm.trans
            (atomicRun_error s _ e (congrArg (fun t => t.2.2) h))

/-- A failing executor for the rollback witness: once two rows are
committed, the next insert writes a stray row and then fails. -/
def exFailLate : Executor :=
  ⟨fun s batch _ _ =>
    if 2 ≤ s.length then (s ++ [[99]], .error (.dbError "boom"))
    else (s ++ batch.map (fun e => [e.pk.getD 0]),
      .ok (batch.map (fun _ => [])))⟩

theorem C6_rollback_on_error_witness :
    (spanner_bulk_create metaX featSmall exFailLate freshKeys 7 []
        [entPk 1, entPk 2, entPk 3] none false false [] []).1 = [] := by
  exact C6_rollback_on_error metaX featSmall exFailLate freshKeys 7 []
    [entPk 1, entPk 2, entPk 3] none false false [] []
    (spanner_bulk_create metaX featSmall exFailLate freshKeys 7 []
      [entPk 1, entPk 2, entPk 3] none false false [] []).1
    (spanner_bulk_create metaX featSmall exFailLate freshKeys 7 []
      [entPk 1, entPk 2, entPk 3] none false false [] []).2.1
    (.dbError "boom") rfl

/-- Claim C7: when the backend reports it can return rows from bulk insert
and the resolved conflict policy is NONE, the without-pk execution fails
with the internal-consistency assertion exactly when the returned row count
differs from the batch size, and the executor is invoked exactly once for
the batch (no retry). -/
theorem C7_consistency_check (meta : ModelMeta) (features : Features)
    (ex : Executor) (db : Nat) (fields : List FieldMeta) (s : DbState)
    (objs : List Entity) (rows : List (List Nat))
    (hcr : features.can_return_rows_from_bulk_insert = true)
    (hne : objs ≠ [])
    (hex : (ex.insert s objs (fields.filter (fun f => !f.isAuto)) none).2
      = .ok rows) :
    ((processWithoutPk meta features ex db fields none s objs).2.2
        = .error .assertionFailed ↔ rows.length ≠ objs.length)
      ∧ (processWithoutPk meta features ex db fields none s objs).2.1
        = [.insertBatch false objs.length] := by
  have hempty : objs.isEmpty = false := by
    cases objs with
    | nil => exact absurd rfl hne
    | cons a l => rfl
  unfold processWithoutPk
  rw [hempty]
  simp only [Bool.false_eq_true, if_false]
  rw [hex]
  by_cases hlen : rows.length = objs.length
  · simp [hcr, hlen]
  · simp [hcr, hlen]

/-- An executor that succeeds but returns no rows, for the consistency
witness. -/
def exNoRows : Executor :=
  ⟨fun s _ _ _ => (s, .ok [])⟩

theorem C7_consistency_check_witness :
    ((processWithoutPk metaX featSmall exNoRows 7 metaX.concrete_fields none
          [] [entNoPk]).2.2 = .error .assertionFailed
        ↔ ([] : List (List Nat)).length ≠ [entNoPk].length)
      ∧ (processWithoutPk metaX featSmall exNoRows 7 metaX.concrete_fields
          none [] [entNoPk]).2.1
        = [.insertBatch false [entNoPk].length] :=
  C7_consistency_check metaX featSmall exNoRows 7 metaX.concrete_fields []
    [entNoPk] [] rfl (by decide) rfl

/-! Helper lemma for field resolution through `Meta.get_field`. -/

lemma mapM_get_field_ok (meta : ModelMeta) (F : String → FieldMeta) :
    ∀ ns : List String,
      (∀ n ∈ ns, meta.allFields.lookup n = some (F n)) →
      ns.mapM meta.get_field = .ok (ns.map F) := by
  intro ns
  induction ns with
  | nil => intro _; rfl
  | cons n ns ih =>
    intro h
    have hget : meta.get_field n = .ok (F n) := by
      unfold ModelMeta.get_field
      rw [h n (List.mem_cons_self n ns)]
    rw [List.mapM_cons, hget,
      ih (fun m hm => h m (List.mem_cons_of_mem n hm))]
    rfl

/-- Claim C9: with `update_conflicts` set and `unique_fields` given, the
literal token "pk" is permitted inside `unique_fields` and is excluded from
field resolution and the concreteness checks (nothing is assumed about any
field named "pk", whose lookup may well fail); every other name is resolved
through `Meta.get_field` and must be concrete and not many-to-many: when
all are, the resolver returns the UPDATE policy, and when any is not, it
fails with `ValueError`. -/
theorem C9_pk_token_excluded (meta : ModelMeta) (features : Features)
    (update_fields unique_fields : List String)
    (F G : String → FieldMeta)
    (hsu : features.supports_update_conflicts = true)
    (hst : features.supports_update_conflicts_with_target = true)
    (hufne : update_fields ≠ [])
    (huqne : unique_fields ≠ [])
    (hures : ∀ n ∈ update_fields, meta.allFields.lookup n = some (G n))
    (hugood : ∀ n ∈ update_fields, (G n).concrete = true
      ∧ (G n).many_to_many = false ∧ (G n).primary_key = false) :
    ((∀ n ∈ unique_fields, n ≠ "pk" →
        meta.allFields.lookup n = some (F n) ∧ (F n).concrete = true
          ∧ (F n).many_to_many = false) →
      spanner_check_bulk_create_options meta features false true
        update_fields unique_fields = .ok (some .update))
    ∧ ((∀ n ∈ unique_fields, n ≠ "pk" →
          meta.allFields.lookup n = some (F n)) →
        (∃ n ∈ unique_fields, n ≠ "pk"
          ∧ ((F n).concrete = false ∨ (F n).many_to_many = true)) →
      spanner_check_bulk_create_options meta features false true
        update_fields unique_fields
        = .error (.invalidArgument
            "bulk_create() can only be used with concrete fields in unique_fields.")) := by
  have hemp1 : update_fields.isEmpty = false :=
    List.isEmpty_eq_false.mpr hufne
  have hemp2 : unique_fields.isEmpty = false :=
    List.isEmpty_eq_false.mpr huqne
  have hmapu := mapM_get_field_ok meta G update_fields hures
  have hanyu : (update_fields.map G).any
      (fun f => !f.concrete || f.many_to_many) = false := by
    rw [List.any_eq_false]
    intro x hx
    rw [List.mem_map] at hx
    obtain ⟨n, hn, rfl⟩ := hx
    obtain ⟨hc, hm, _⟩ := hugood n hn
    simp [hc, hm]
  have hanypk : (update_fields.map G).any (fun f => f.primary_key)
      = false := by
    rw [List.any_eq_false]
    intro x hx
    rw [List.mem_map] at hx
    obtain ⟨n, hn, rfl⟩ := hx
    simp [(hugood n hn).2.2]
  constructor
  · intro hall
    have hfl : ∀ n ∈ unique_fields.filter (fun n => n ≠ "pk"),
        meta.allFields.lookup n = some (F n) := by
      intro n hn
      rw [List.mem_filter] at hn
      exact (hall n hn.1 (by simpa using hn.2)).1
    have hmapq := mapM_get_field_ok meta F _ hfl
    have hanyq : ((unique_fields.filter (fun n => n ≠ "pk")).map F).any
        (fun f => !f.concrete || f.many_to_many) = false := by
      rw [List.any_eq_false]
      intro x hx
      rw [List.mem_map] at hx
      obtain ⟨n, hn, rfl⟩ := hx
      rw [List.mem_filter] at hn
      obtain ⟨-, hc, hm⟩ := hall n hn.1 (by simpa using hn.2)
      simp [hc, hm]
    unfold spanner_check_bulk_create_options
    rw [hsu, hst, hemp1, hemp2, hmapu, hmapq]
    simp only [hanyu, hanypk, hanyq, Bool.false_and, Bool.and_false,
      Bool.not_true, Bool.true_and, Bool.and_true, Bool.not_false,
      Bool.false_eq_true, Bool.true_eq_false, if_true, if_false,
      Bool.false_or, Bool.or_false, ite_true, ite_false]
  · intro hres hbad
    have hfl : ∀ n ∈ unique_fields.filter (fun n => n ≠ "pk"),
        meta.allFields.lookup n = some (F n) := by
      intro n hn
      rw [List.mem_filter] at hn
      exact hres n hn.1 (by simpa using hn.2)
    have hmapq := mapM_get_field_ok meta F _ hfl
    have hanyq : ((unique_fields.filter (fun n => n ≠ "pk")).map F).any
        (fun f => !f.concrete || f.many_to_many) = true := by
      rw [List.any_eq_true]
      obtain ⟨n, hn, hnpk, hcase⟩ := hbad
      refine ⟨F n, List.mem_map.mpr
        ⟨n, List.mem_filter.mpr ⟨hn, by simpa using hnpk⟩, rfl⟩, ?_⟩
      rcases hcase with hc | hm
      · simp [hc]
      · simp [hm]
    unfold spanner_check_bulk_create_options
    rw [hsu, hst, hemp1, hemp2, hmapu, hmapq]
    simp only [hanyu, hanypk, hanyq, Bool.false_and, Bool.and_false,
      Bool.not_true, Bool.true_and, Bool.and_true, Bool.not_false,
      Bool.false_eq_true, Bool.true_eq_false, if_true, if_false,
      Bool.false_or, Bool.or_false, ite_true, ite_false]

theorem C9_pk_token_excluded_witness :
    spanner_check_bulk_create_options metaX featSmall false true
      ["x"] ["pk", "x"] = .ok (some .update) :=
  (C9_pk_token_excluded metaX featSmall ["x"] ["pk", "x"]
    (fun _ => fldX) (fun _ => fldX) rfl rfl (by decide) (by decide)
    (by decide) (by decide)).1 (by decide)

/-! Destructuring lemmas for successful runs. -/

lemma atomicRun_ok (s : DbState)
    (body : DbState → DbState × List Event × Except BulkError α)
    (s2 : DbState) (evs : List Event) (a : α)
    (h : atomicRun s body = (s2, evs, .ok a)) :
    ∃ evsi, body s = (s2, evsi, .ok a)
      ∧ evs = .atomicBegin false :: (evsi ++ [.atomicEnd]) := by
  rcases hb : body s with ⟨si, evsi, ri⟩
  cases ri with
  | ok x =>
    unfold atomicRun at h
    rw [hb] at h
    obtain rfl : si = s2 := congrArg Prod.fst h
    obtain rfl : x = a := Except.ok.inj (congrArg (fun t => t.2.2) h)
    exact ⟨evsi, rfl, (congrArg (fun t => t.2.1) h).symm⟩
  | error e =>
    unfold atomicRun at h
    rw [hb] at h
    exact Except.noConfusion (congrArg (fun t => t.2.2) h)

lemma bulk_create_ok_run (meta : ModelMeta) (features : Features)
    (ex : Executor) (gen : Nat → Option Nat) (db : Nat) (s : DbState)
    (objs : List Entity) (bs : Option Int) (ic uc : Bool)
    (uf qf : List String) (s2 : DbState) (evs : List Event)
    (res : List Entity) (hne : objs ≠ [])
    (h : spanner_bulk_create meta features ex gen db s objs bs ic uc uf qf
      = (s2, evs, .ok res)) :
    ∃ oc evsi,
      spanner_check_bulk_create_options meta features ic uc uf qf = .ok oc
      ∧ bulk_create_inner meta features ex db
          (effective_batch_size bs features) oc
          (spanner_prepare_for_bulk_create gen objs 0).1 s
          = (s2, evsi, .ok res)
      ∧ evs = .assignKeys :: .atomicBegin false :: (evsi ++ [.atomicEnd]) := by
  unfold spanner_bulk_create at h
  split at h
  · exact Except.noConfusion (congrArg (fun t => t.2.2) h)
  · split at h
    · exact Except.noConfusion (congrArg (fun t => t.2.2) h)
    · split at h
      · next hEmpty => exact absurd (List.isEmpty_iff.mp hEmpty) hne
      · split at h
        · exact Except.noConfusion (congrArg (fun t => t.2.2) h)
        · next oc hcheck =>
          have hA : (atomicRun s (bulk_create_inner meta features ex db
              (effective_batch_size bs features) oc
              (spanner_prepare_for_bulk_create gen objs 0).1)).2.2
              = .ok res := congrArg (fun t => t.2.2) h
          have hB : (atomicRun s (bulk_create_inner meta features ex db
              (effective_batch_size bs features) oc
              (spanner_prepare_for_bulk_create gen objs 0).1)).1
              = s2 := congrArg Prod.fst h
          have hC : Event.assignKeys :: (atomicRun s
              (bulk_create_inner meta features ex db
                (effective_batch_size bs features) oc
                (spanner_prepare_for_bulk_create gen objs 0).1)).2.1
              = evs := congrArg (fun t => t.2.1) h
          rcases hrun : atomicRun s (bulk_create_inner meta features ex db
              (effective_batch_size bs features) oc
              (spanner_prepare_for_bulk_create gen objs 0).1)
            with ⟨sr, evr, rr⟩
          rw [hrun] at hA hB hC
          obtain rfl : rr = .ok res := hA
          obtain rfl : sr = s2 := hB
          obtain ⟨evsi, hbody, hevr⟩ :=
            atomicRun_ok s _ sr evr res hrun
          exact ⟨oc, evsi, hcheck, hbody,
            by rw [← hC, hevr]⟩

lemma bulk_create_inner_ok (meta : ModelMeta) (features : Features)
    (ex : Executor) (db : Nat) (bsz : Nat) (oc : Option OnConflict)
    (objs : List Entity) (s s2 : DbState) (evs : List Event)
    (res : List Entity)
    (h : bulk_create_inner meta features ex db bsz oc objs s
      = (s2, evs, .ok res)) :
    ∃ s1 evs1 done1 evs2 done2,
      processWithPkChunks meta ex db meta.concrete_fields oc s
          (chunksOf bsz (djangoPartition pkIsNone objs).1)
        = (s1, evs1, .ok done1)
      ∧ processWithoutPk meta features ex db meta.concrete_fields oc s1
          (djangoPartition pkIsNone objs).2 = (s2, evs2, .ok done2)
      ∧ evs = .partitionObjs :: (evs1 ++ evs2)
      ∧ res = restoreByPred pkIsNone objs done1 done2 := by
  unfold bulk_create_inner at h
  dsimp only [] at h
  rcases hwp : processWithPkChunks meta ex db meta.concrete_fields oc s
      (chunksOf bsz (djangoPartition pkIsNone objs).1) with ⟨s1, evs1, r1⟩
  rw [hwp] at h
  cases r1 with
  | error e1 => exact Except.noConfusion (congrArg (fun t => t.2.2) h)
  | ok done1 =>
    dsimp only [] at h
    rcases hwo : processWithoutPk meta features ex db meta.concrete_fields oc
        s1 (djangoPartition pkIsNone objs).2 with ⟨sB, evs2, r2⟩
    rw [hwo] at h
    cases r2 with
    | error e2 => exact Except.noConfusion (congrArg (fun t => t.2.2) h)
    | ok done2 =>
      obtain rfl : sB = s2 := congrArg Prod.fst h
      exact ⟨s1, evs1, done1, evs2, done2, rfl, hwo,
        (congrArg (fun t => t.2.1) h).symm,
        (Except.ok.inj (congrArg (fun t => t.2.2) h)).symm⟩

/-! Event-shape lemmas: each with-pk chunk contributes one has-key executor
event, the without-pk group at most one lacks-key event. -/

lemma processWithPkChunks_ok_events (meta : ModelMeta) (ex : Executor)
    (db : Nat) (fields : List FieldMeta) (oc : Option OnConflict) :
    ∀ (chunks : List (List Entity)) (s s1 : DbState) (evs : List Event)
      (done : List Entity),
      processWithPkChunks meta ex db fields oc s chunks
        = (s1, evs, .ok done) →
      ∃ ns : List Nat, evs = ns.map (fun n => Event.insertBatch true n) := by
  intro chunks
  induction chunks with
  | nil =>
    intro s s1 evs done h
    have hevs : ([] : List Event) = evs := congrArg (fun t => t.2.1) h
    exact ⟨[], hevs.symm⟩
  | cons c cs ih =>
    intro s s1 evs done h
    unfold processWithPkChunks at h
    rcases hstep : ex.insert s c fields oc with ⟨sA, rA⟩
    rw [hstep] at h
    cases rA with
    | error e => exact Except.noConfusion (congrArg (fun t => t.2.2) h)
    | ok returned =>
      dsimp only [] at h
      rcases htail : processWithPkChunks meta ex db fields oc sA cs
        with ⟨sB, evsB, rB⟩
      rw [htail] at h
      cases rB with
      | error e => exact Except.noConfusion (congrArg (fun t => t.2.2) h)
      | ok doneRest =>
        obtain ⟨ns, hns⟩ := ih sA sB evsB doneRest htail
        have hevs : Event.insertBatch true c.length :: evsB = evs :=
          congrArg (fun t => t.2.1) h
        exact ⟨c.length :: ns, by rw [← hevs, hns]; rfl⟩

lemma processWithoutPk_ok_events (meta : ModelMeta) (features : Features)
    (ex : Executor) (db : Nat) (fields : List FieldMeta)
    (oc : Option OnConflict) (s : DbState) (objs : List Entity)
    (s2 : DbState) (evs : List Event) (done : List Entity)
    (h : processWithoutPk meta features ex db fields oc s objs
      = (s2, evs, .ok done)) :
    ∃ ms : List Nat, evs = ms.map (fun n => Event.insertBatch false n) := by
  unfold processWithoutPk at h
  by_cases hemp : objs.isEmpty
  · rw [if_pos hemp] at h
    exact ⟨[], (congrArg (fun t => t.2.1) h).symm⟩
  · rw [if_neg hemp] at h
    dsimp only [] at h
    rcases hstep : ex.insert s objs (fields.filter (fun f => !f.isAuto)) oc
      with ⟨sA, rA⟩
    rw [hstep] at h
    cases rA with
    | error e => exact Except.noConfusion (congrArg (fun t => t.2.2) h)
    | ok returned =>
      dsimp only [] at h
      by_cases hcond : features.can_return_rows_from_bulk_insert = true
          ∧ oc = none ∧ returned.length ≠ objs.length
      · rw [if_pos hcond] at h
        exact Except.noConfusion (congrArg (fun t => t.2.2) h)
      · rw [if_neg hcond] at h
        exact ⟨[objs.length], (congrArg (fun t => t.2.1) h).symm⟩

/-- Claim C2 counterexample: in the concrete run the key-assignment event is
the unique first event of the trace and the atomic scope only opens at the
second position, so the atomic scope does not span the Key Assigner: the
keys are assigned before the scope is entered (line 120 precedes the `with
transaction.atomic` of line 124). -/
theorem C2_counterexample :
    (spanner_bulk_create metaX featSmall exOk freshKeys 7 [] [entPk 1]
        none false false [] []).2.1
      = [.assignKeys, .atomicBegin false, .partitionObjs,
         .insertBatch true 1, .atomicEnd]
    ∧ (spanner_bulk_create metaX featSmall exOk freshKeys 7 [] [entPk 1]
        none false false [] []).2.1.indexOf Event.assignKeys
      < (spanner_bulk_create metaX featSmall exOk freshKeys 7 [] [entPk 1]
        none false false [] []).2.1.indexOf (Event.atomicBegin false)
    ∧ (spanner_bulk_create metaX featSmall exOk freshKeys 7 [] [entPk 1]
        none false false [] []).2.1.count Event.assignKeys = 1 :=
  ⟨rfl, by decide, by decide⟩

/-- Claim C2 (amended): every successful call on a non-empty input produces
exactly this event shape: the Key Assigner pass first, then entry into the
single atomic scope with savepoint disabled, then (inside the scope) the
partition step, then one executor invocation per batch with every has-key
batch before every lacks-key batch, then the scope exit. -/
theorem C2_amended_trace (meta : ModelMeta) (features : Features)
    (ex : Executor) (gen : Nat → Option Nat) (db : Nat) (s : DbState)
    (objs : List Entity) (bs : Option Int) (ic uc : Bool)
    (uf qf : List String) (s2 : DbState) (evs : List Event)
    (res : List Entity) (hne : objs ≠ [])
    (h : spanner_bulk_create meta features ex gen db s objs bs ic uc uf qf
      = (s2, evs, .ok res)) :
    ∃ ns ms : List Nat,
      evs = .assignKeys :: .atomicBegin false :: .partitionObjs ::
        ((ns.map (fun n => Event.insertBatch true n)
          ++ ms.map (fun n => Event.insertBatch false n))
          ++ [.atomicEnd]) := by
  obtain ⟨oc, evsi, hcheck, hinner, hevs⟩ :=
    bulk_create_ok_run meta features ex gen db s objs bs ic uc uf qf
      s2 evs res hne h
  obtain ⟨s1, evs1, done1, evs2, done2, hwp, hwo, hevsi, -⟩ :=
    bulk_create_inner_ok meta features ex db _ oc _ s s2 evsi res hinner
  obtain ⟨ns, hns⟩ := processWithPkChunks_ok_events meta ex db
    meta.concrete_fields oc _ s s1 evs1 done1 hwp
  obtain ⟨ms, hms⟩ := processWithoutPk_ok_events meta features ex db
    meta.concrete_fields oc s1 _ s2 evs2 done2 hwo
  refine ⟨ns, ms, ?_⟩
  rw [hevs, hevsi, hns, hms]
  simp

theorem C2_amended_trace_witness :
    ∃ ns ms : List Nat,
      [Event.assignKeys, Event.atomicBegin false, Event.partitionObjs,
        Event.insertBatch true 2, Event.atomicEnd]
      = Event.assignKeys :: Event.atomicBegin false :: Event.partitionObjs ::
          ((ns.map (fun n => Event.insertBatch true n)
            ++ ms.map (fun n => Event.insertBatch false n))
            ++ [Event.atomicEnd]) :=
  C2_amended_trace metaX featSmall exOk freshKeys 7 [] [entPk 1, entNoPk]
    none false false [] [] [[1], [100]]
    [Event.assignKeys, Event.atomicBegin false, Event.partitionObjs,
      Event.insertBatch true 2, Event.atomicEnd]
    [⟨some 1, [], false, some 7⟩, ⟨some 100, [], false, some 7⟩]
    (by decide) rfl

/-! Helper lemmas for the key-assignment claim. -/

lemma spanner_prepare_cons (gen : Nat → Option Nat) (a : Entity)
    (as : List Entity) (i : Nat) :
    spanner_prepare_for_bulk_create gen (a :: as) i
      = if a.pk = none then
          ({ a with pk := gen i }
              :: (spanner_prepare_for_bulk_create gen as (i + 1)).1,
            (spanner_prepare_for_bulk_create gen as (i + 1)).2)
        else
          (a :: (spanner_prepare_for_bulk_create gen as i).1,
            (spanner_prepare_for_bulk_create gen as i).2) :=
  rfl

lemma prepare_pk_ne_none (gen : Nat → Option Nat)
    (hgen : ∀ i, gen i ≠ none) :
    ∀ (objs : List Entity) (i : Nat),
      ∀ o ∈ (spanner_prepare_for_bulk_create gen objs i).1, o.pk ≠ none := by
  intro objs
  induction objs with
  | nil =>
    intro i o ho
    simp [spanner_prepare_for_bulk_create] at ho
  | cons a as ih =>
    intro i o ho
    rw [spanner_prepare_cons] at ho
    by_cases hpk : a.pk = none
    · rw [if_pos hpk] at ho
      rcases List.mem_cons.mp ho with h1 | h1
      · subst h1
        exact hgen i
      · exact ih (i + 1) o h1
    · rw [if_neg hpk] at ho
      rcases List.mem_cons.mp ho with h1 | h1
      · subst h1
        exact hpk
      · exact ih i o h1

lemma djangoPartition_all_false (pred : α → Bool) (l : List α)
    (h : ∀ x ∈ l, pred x = false) :
    djangoPartition pred l = (l, []) := by
  rw [djangoPartition_eq_filter]
  have h1 : l.filter (fun v => !pred v) = l :=
    List.filter_eq_self.mpr (fun a ha => by rw [h a ha]; rfl)
  have h2 : l.filter pred = [] :=
    List.filter_eq_nil_iff.mpr
      (fun a ha => by rw [h a ha]; exact Bool.false_ne_true)
  rw [h1, h2]

lemma applyRow_skip_pk (meta : ModelMeta) (row : List Nat) (e : Entity) :
    (applyRow meta true e row).pk = e.pk := by
  unfold applyRow
  generalize row.zip meta.db_returning_fields = ps
  induction ps generalizing e with
  | nil => rfl
  | cons p ps ih =>
    rw [List.foldl_cons, ih]
    by_cases hn : p.2.name = meta.pkName
    · simp [hn]
    · simp [setAttr, hn]

lemma zipApply_applyRow_pk (meta : ModelMeta) :
    ∀ (chunk : List Entity) (returned : List (List Nat)),
      (∀ x ∈ chunk, x.pk ≠ none) →
      ∀ y ∈ zipApply (applyRow meta true) chunk returned, y.pk ≠ none := by
  intro chunk
  induction chunk with
  | nil =>
    intro returned _ y hy
    cases returned <;> simp [zipApply] at hy
  | cons e es ih =>
    intro returned hc y hy
    cases returned with
    | nil => exact hc y hy
    | cons r rs =>
      rcases List.mem_cons.mp hy with h1 | h1
      · subst h1
        rw [applyRow_skip_pk]
        exact hc e (List.mem_cons_self e es)
      · exact ih rs (fun x hx => hc x (List.mem_cons_of_mem e hx)) y h1

lemma writeback_with_pk_mem (meta : ModelMeta) (db : Nat)
    (chunk : List Entity) (returned : List (List Nat))
    (hc : ∀ x ∈ chunk, x.pk ≠ none) :
    ∀ e ∈ writeback_with_pk meta db chunk returned,
      e.pk ≠ none ∧ e.adding = false := by
  intro e he
  unfold writeback_with_pk at he
  rw [List.mem_map] at he
  obtain ⟨y, hy, rfl⟩ := he
  exact ⟨zipApply_applyRow_pk meta chunk returned hc y hy, rfl⟩

lemma processWithPkChunks_ok_mem (meta : ModelMeta) (ex : Executor)
    (db : Nat) (fields : List FieldMeta) (oc : Option OnConflict) :
    ∀ (chunks : List (List Entity)) (s s1 : DbState) (evs : List Event)
      (done : List Entity),
      processWithPkChunks meta ex db fields oc s chunks
        = (s1, evs, .ok done) →
      (∀ c ∈ chunks, ∀ x ∈ c, x.pk ≠ none) →
      ∀ e ∈ done, e.pk ≠ none ∧ e.adding = false := by
  intro chunks
  induction chunks with
  | nil =>
    intro s s1 evs done h hmem e he
    have hd : ([] : List Entity) = done :=
      Except.ok.inj (congrArg (fun t => t.2.2) h)
    rw [← hd] at he
    exact absurd he (List.not_mem_nil e)
  | cons c cs ih =>
    intro s s1 evs done h hmem e he
    unfold processWithPkChunks at h
    rcases hstep : ex.insert s c fields oc with ⟨sA, rA⟩
    rw [hstep] at h
    cases rA with
    | error e2 => exact Except.noConfusion (congrArg (fun t => t.2.2) h)
    | ok returned =>
      dsimp only [] at h
      rcases htail : processWithPkChunks meta ex db fields oc sA cs
        with ⟨sB, evsB, rB⟩
      rw [htail] at h
      cases rB with
      | error e2 => exact Except.noConfusion (congrArg (fun t => t.2.2) h)
      | ok doneRest =>
        have hd : writeback_with_pk meta db c returned ++ doneRest = done :=
          Except.ok.inj (congrArg (fun t => t.2.2) h)
        rw [← hd] at he
        rcases List.mem_append.mp he with h1 | h1
        · exact writeback_with_pk_mem meta db c returned
            (hmem c (List.mem_cons_self c cs)) e h1
        · exact ih sA sB evsB doneRest htail
            (fun c2 hc2 => hmem c2 (List.mem_cons_of_mem c hc2)) e h1

lemma restoreByPred_mem_false (pred : Entity → Bool) :
    ∀ (l fs ts : List Entity), (∀ o ∈ l, pred o = false) →
      ∀ e ∈ restoreByPred pred l fs ts, e ∈ fs := by
  intro l
  induction l with
  | nil =>
    intro fs ts _ e he
    simp [restoreByPred] at he
  | cons o os ih =>
    intro fs ts hl e he
    rw [restoreByPred_cons,
      if_neg (by simp [hl o (List.mem_cons_self o os)])] at he
    cases fs with
    | nil => simp at he
    | cons f fs2 =>
      rcases List.mem_cons.mp he with h1 | h1
      · subst h1
        exact List.mem_cons_self _ _
      · exact List.mem_cons_of_mem f
          (ih fs2 ts (fun x hx => hl x (List.mem_cons_of_mem o hx)) e h1)

/-- Claim C1: for a non-empty input in which no entity has a pre-assigned
primary key, and with the key-generation strategy of this engine (which
always yields a value, as the patched `AutoField` default `gen_rand_int64`
does), a successful `bulk_create` returns a list in which every entity has a
non-null primary key and a cleared is-new flag. -/
theorem C1_keys_assigned (meta : ModelMeta) (features : Features)
    (ex : Executor) (gen : Nat → Option Nat) (db : Nat) (s : DbState)
    (objs : List Entity) (bs : Option Int) (ic uc : Bool)
    (uf qf : List String) (s2 : DbState) (evs : List Event)
    (res : List Entity)
    (hne : objs ≠ [])
    (hnopk : ∀ o ∈ objs, o.pk = none)
    (hgen : ∀ i, gen i ≠ none)
    (h : spanner_bulk_create meta features ex gen db s objs bs ic uc uf qf
      = (s2, evs, .ok res)) :
    ∀ e ∈ res, e.pk ≠ none ∧ e.adding = false := by
  obtain ⟨oc, evsi, hcheck, hinner, hevs⟩ :=
    bulk_create_ok_run meta features ex gen db s objs bs ic uc uf qf
      s2 evs res hne h
  obtain ⟨s1, evs1, done1, evs2, done2, hwp, hwo, hevsi, hres⟩ :=
    bulk_create_inner_ok meta features ex db _ oc _ s s2 evsi res hinner
  have hprep : ∀ o ∈ (spanner_prepare_for_bulk_create gen objs 0).1,
      o.pk ≠ none := prepare_pk_ne_none gen hgen objs 0
  have hpf : ∀ o ∈ (spanner_prepare_for_bulk_create gen objs 0).1,
      pkIsNone o = false := by
    intro o ho
    simp only [pkIsNone, decide_eq_false_iff_not]
    exact hprep o ho
  have hpart := djangoPartition_all_false pkIsNone _ hpf
  rw [hpart] at hwp
  have hchunks : ∀ c ∈ chunksOf (effective_batch_size bs features)
      ((spanner_prepare_for_bulk_create gen objs 0).1, ([] : List Entity)).1,
      ∀ x ∈ c, x.pk ≠ none :=
    fun c hc x hx => hprep x (chunksOf_mem_mem _ _ c hc x hx)
  have hdone1 := processWithPkChunks_ok_mem meta ex db meta.concrete_fields
    oc _ s s1 evs1 done1 hwp hchunks
  intro e he
  rw [hres] at he
  exact hdone1 e (restoreByPred_mem_false pkIsNone _ done1 done2 hpf e he)

theorem C1_keys_assigned_witness :
    (⟨some 100, [], false, some 7⟩ : Entity).pk ≠ none
      ∧ (⟨some 100, [], false, some 7⟩ : Entity).adding = false :=
  C1_keys_assigned metaX featSmall exOk freshKeys 7 []
    [entNoPk, entNoPk, entNoPk] none false false [] []
    [[100], [101], [102]]
    [Event.assignKeys, Event.atomicBegin false, Event.partitionObjs,
      Event.insertBatch true 2, Event.insertBatch true 1, Event.atomicEnd]
    [⟨some 100, [], false, some 7⟩, ⟨some 101, [], false, some 7⟩,
      ⟨some 102, [], false, some 7⟩]
    (by decide) (by decide) (fun i => by simp [freshKeys]) rfl
    ⟨some 100, [], false, some 7⟩ (by decide)

end DjangoSpanner
